import Mathlib

/-!
Verification of the AIStore content-addressing core and the bucket-copy
xaction, shallowly embedded in Lean.

Strings are embedded as `List Char`.  The embedded code comes from
`fs/content.go` (content registry, FQN codec, permission queries, the four
content resolvers) and from the `mirror` package (`XactBckCopy.Run`,
`runJoggers`, `bccJogger.jog`, `bccJogger.copyObject`).  Helpers that the
repository calls but whose sources are not part of this tree
(`Mountpath.MakePathFQN`, `fs.ParseFQN`, `cos.GenTie`, `spid`/`pid`,
`xactBckBase.waitDone`, `joggerBckBase.jog`, `throttleNumObjects`) are
modelled from the specification; each such definition says so in its doc
comment.
-/

namespace AStore

abbrev Str := List Char

/-! ### Path / string primitives (Go `strings` and `path/filepath` behavior) -/

/-- Go `filepath.Split`: splits at the final separator; the directory part
keeps its trailing separator; with no separator the directory part is empty. -/
def breakLast (sep : Char) (s : Str) : Str × Str :=
  ((s.reverse.dropWhile (fun c => c != sep)).reverse,
   (s.reverse.takeWhile (fun c => c != sep)).reverse)

/-- Go `strings.Index(s, sep)` followed by taking the two surrounding slices:
`none` when the separator does not occur; otherwise the (before, after) parts,
the separator at its first occurrence removed. -/
def breakFirst (sep : Char) (s : Str) : Option (Str × Str) :=
  match s.dropWhile (fun c => c != sep) with
  | [] => none
  | _ :: r => some (s.takeWhile (fun c => c != sep), r)

/-- Go `strings.LastIndex(s, sep)` followed by taking the two surrounding
slices: `none` when the separator does not occur; otherwise the
(before, after) parts around its last occurrence. -/
def breakLastIdx (sep : Char) (s : Str) : Option (Str × Str) :=
  match s.reverse.dropWhile (fun c => c != sep) with
  | [] => none
  | _ :: r => some (r.reverse, (s.reverse.takeWhile (fun c => c != sep)).reverse)

/-- Go `filepath.Join(dir, fname)` on the clean inputs arising in this code
base: empty directory yields the file name; otherwise the directory (its
trailing separator dropped, as `filepath.Clean` would) is joined with one
separator. -/
def joinPath (dir fname : Str) : Str :=
  if dir = [] then fname
  else (if dir.getLast? = some '/' then dir.dropLast else dir) ++ '/' :: fname

/-! ### Hexadecimal process ids (Go `strconv.FormatInt` / `strconv.ParseInt`) -/

/-- Lowercase hexadecimal digit for a value below 16. -/
def hexChar (n : Nat) : Char :=
  if n < 10 then Char.ofNat (48 + n) else Char.ofNat (87 + n)

/-- Lowercase hexadecimal rendering of a natural number, as
`strconv.FormatInt(n, 16)` produces for non-negative `n`. -/
def toHex (n : Nat) : Str :=
  if n < 16 then [hexChar n]
  else toHex (n / 16) ++ [hexChar (n % 16)]
decreasing_by exact Nat.div_lt_self (by omega) (by omega)

/-- Numeric value of one hexadecimal digit character, either case. -/
def hexVal (c : Char) : Option Nat :=
  if '0' ≤ c ∧ c ≤ '9' then some (c.toNat - 48)
  else if 'a' ≤ c ∧ c ≤ 'f' then some (c.toNat - 87)
  else if 'A' ≤ c ∧ c ≤ 'F' then some (c.toNat - 55)
  else none

def parseHexCore : Str → Nat → Option Nat
  | [], acc => some acc
  | c :: cs, acc =>
    match hexVal c with
    | none => none
    | some d => parseHexCore cs (acc * 16 + d)

/-- Go `strconv.ParseInt(s, 16, 64)` on the unsigned inputs arising here:
empty input and non-digit characters fail, and a value that does not fit a
signed 64-bit integer fails (Go reports `ErrRange`). -/
def parseHex64 (s : Str) : Option Nat :=
  match s with
  | [] => none
  | _ =>
    match parseHexCore s 0 with
    | none => none
    | some n => if n < 2 ^ 63 then some n else none

/-! ### Content resolvers (`fs/content.go`, closed set of four variants) -/

inductive ContentResolver
  | obj
  | workfile
  | ecSlice
  | ecMeta
deriving DecidableEq

def ContentResolver.permToMove : ContentResolver → Bool
  | .obj => true
  | .workfile => false
  | .ecSlice => true
  | .ecMeta => true

def ContentResolver.permToEvict : ContentResolver → Bool
  | .obj => true
  | .workfile => true
  | .ecSlice => true
  | .ecMeta => true

def ContentResolver.permToProcess : ContentResolver → Bool
  | .obj => true
  | .workfile => false
  | .ecSlice => false
  | .ecMeta => false

/-- `WorkfileContentResolver.GenUniqueFQN`.  The tie-breaker string (from
`cos.GenTie`, not under src/) and the process id are passed in explicitly:
the Go code reads them from process-wide state (`cos.GenTie()` and `spid`,
the hex-rendered pid). -/
def workfileGen (pid : Nat) (tie : Str) (base pfx : Str) : Str :=
  let p := breakLast '/' base
  let fname := pfx ++ '.' :: p.2
  joinPath p.1 fname ++ '.' :: tie ++ '.' :: toHex pid

/-- `WorkfileContentResolver.ParseUniqueFQN`: strip through the first dot,
split the last dot off as the hex pid, the previous last dot off as the tie
breaker; the old flag is set when the decoded pid differs from the current
process id `pid`. -/
def workfileParse (pid : Nat) (base : Str) : Option (Str × Bool) :=
  match breakFirst '.' base with
  | none => none
  | some (_, rest) =>
    match breakLastIdx '.' rest with
    | none => none
    | some (beforePid, pidStr) =>
      match breakLastIdx '.' beforePid with
      | none => none
      | some (orig, _) =>
        match parseHex64 pidStr with
        | none => none
        | some filePID => some (orig, if filePID = pid then false else true)

/-- `GenUniqueFQN` dispatch: the workfile resolver decorates the name, the
other three resolvers are the identity. -/
def ContentResolver.genUniqueFQN (r : ContentResolver) (pid : Nat) (tie : Str)
    (base pfx : Str) : Str :=
  match r with
  | .workfile => workfileGen pid tie base pfx
  | _ => base

/-- `ParseUniqueFQN` dispatch: the workfile resolver parses its decoration,
the other three resolvers return the base unchanged with `old = false`. -/
def ContentResolver.parseUniqueFQN (r : ContentResolver) (pid : Nat)
    (base : Str) : Option (Str × Bool) :=
  match r with
  | .workfile => workfileParse pid base
  | _ => some (base, false)

/-! ### Content registry (`contentSpecMgr`) -/

abbrev Registry := List (Str × ContentResolver)

/-- `contentSpecMgr.Resolver`: map lookup, absent entries give `none`. -/
def lookupCT : Registry → Str → Option ContentResolver
  | [], _ => none
  | (k, v) :: rest, ct => if k = ct then some v else lookupCT rest ct

def contentTypeLen : Nat := 2

inductive RegErr
  | containsSep
  | badLength
  | alreadyRegistered
deriving DecidableEq

/-- `contentSpecMgr.Reg`: reject a tag containing the path separator, a tag
whose length is not `contentTypeLen`, and a tag already registered; otherwise
add the binding. -/
def Reg (m : Registry) (ct : Str) (spec : ContentResolver) :
    Except RegErr Registry :=
  if '/' ∈ ct then .error .containsSep
  else if ct.length ≠ contentTypeLen then .error .badLength
  else if (lookupCT m ct).isSome then .error .alreadyRegistered
  else .ok ((ct, spec) :: m)

/-! ### FQN codec -/

/-- Modelled from the spec: `Mountpath.MakePathFQN` is not under src/; the
spec defines the FQN as the physical path encoding {mountpath root, bucket,
content type, unique basename}, joined by the path separator. -/
def makePathFQN (mpath bucket ct objName : Str) : Str :=
  mpath ++ '/' :: bucket ++ '/' :: ct ++ '/' :: objName

/-- `contentSpecMgr.Gen`: look the resolver up, decorate the object name,
build the path.  The Go code dereferences the looked-up resolver without a
nil check, so an unregistered content type has no defined result; that
undefined behavior is modelled as `none`. -/
def Gen (m : Registry) (pid : Nat) (tie : Str)
    (mpath bucket objName ct pfx : Str) : Option Str :=
  match lookupCT m ct with
  | none => none
  | some spec =>
    some (makePathFQN mpath bucket ct (spec.genUniqueFQN pid tie objName pfx))

structure ParsedFQN where
  bucket : Str
  contentType : Str
  objName : Str
deriving DecidableEq

/-- Modelled from the spec: `fs.ParseFQN` is not under src/; per the spec it
recognizes the mountpath root as a prefix of the path and then reads the
bucket and content-type components, the remainder being the unique basename
(possibly containing separators). -/
def parseFQN (mpath : Str) (fqn : Str) : Option ParsedFQN :=
  if fqn.take (mpath.length + 1) = mpath ++ ['/'] then
    match breakFirst '/' (fqn.drop (mpath.length + 1)) with
    | none => none
    | some (bucket, rest) =>
      match breakFirst '/' rest with
      | none => none
      | some (ct, objName) => some ⟨bucket, ct, objName⟩
  else none

structure ContentInfo where
  dir : Str
  base : Str
  ctype : Str
  old : Bool
deriving DecidableEq

/-- `contentSpecMgr.FileSpec`: split directory/basename, require the
directory to end with the separator and the basename to be non-empty, parse
the FQN, look up the content type, and let the resolver recover the original
basename and the staleness flag.  Every failure is the absent result. -/
def FileSpec (m : Registry) (pid : Nat) (mpath : Str) (fqn : Str) :
    Option (ContentResolver × ContentInfo) :=
  let p := breakLast '/' fqn
  if p.1.getLast? ≠ some '/' ∨ p.2 = [] then none
  else
    match parseFQN mpath fqn with
    | none => none
    | some parsed =>
      match lookupCT m parsed.contentType with
      | none => none
      | some spec =>
        match spec.parseUniqueFQN pid p.2 with
        | none => none
        | some (origBase, old) =>
          some (spec, ⟨p.1, origBase, parsed.contentType, old⟩)

/-- `contentSpecMgr.PermToEvict`: an undecodable or unknown FQN is
evictable and not old. -/
def PermToEvict (m : Registry) (pid : Nat) (mpath fqn : Str) : Bool × Bool :=
  match FileSpec m pid mpath fqn with
  | none => (true, false)
  | some (spec, info) => (spec.permToEvict, info.old)

/-- `contentSpecMgr.PermToMove`: an undecodable or unknown FQN may not be
moved. -/
def PermToMove (m : Registry) (pid : Nat) (mpath fqn : Str) : Bool :=
  match FileSpec m pid mpath fqn with
  | none => false
  | some (spec, _) => spec.permToMove

/-- `contentSpecMgr.PermToProcess`: an undecodable or unknown FQN may not be
processed. -/
def PermToProcess (m : Registry) (pid : Nat) (mpath fqn : Str) : Bool :=
  match FileSpec m pid mpath fqn with
  | none => false
  | some (spec, _) => spec.permToProcess

/-! ### Bucket-copy jogger per-object step (`bccJogger.copyObject`) -/

/-- Jogger-visible counters: the parent job's object and byte counters
(`ObjectsInc` / `BytesAdd`) and the jogger's own processed-object count
`j.num`. -/
structure BccState where
  objects : Nat
  bytes : Nat
  num : Nat
deriving DecidableEq

/-- Errors surfaced by the per-object copy or by the capacity status query;
`cmn.IsErrOOS` distinguishes the out-of-space classification. -/
inductive CpErr
  | oos (m : Str)
  | other (m : Str)
deriving DecidableEq

/-- `cmn.IsErrOOS` on an optional error. -/
def isErrOOS : Option CpErr → Bool
  | some (.oos _) => true
  | _ => false

/-- `err.Error()`. -/
def CpErr.msg : CpErr → Str
  | .oos m => m
  | .other m => m

/-- The jogger's returned error: either `cmn.NewAbortedErrorDetails(what,
details)` or the per-object error passed through. -/
inductive JogErr
  | aborted (what details : Str)
  | plain (e : CpErr)
deriving DecidableEq

/-- Message of an optional error; the out-of-space branch of `copyObject`
only reads it when the error is present. -/
def oosMsg : Option CpErr → Str
  | some e => e.msg
  | none => []

/-- The Go format `fmt.Sprintf` with verb string percent-s, parenthesized
quoted percent-q: the job kind followed by the double-quoted job id in
parentheses. -/
def abortWhat (kind id : Str) : Str :=
  kind ++ '(' :: Char.ofNat 34 :: (id ++ Char.ofNat 34 :: ')' :: [])

/-- `bccJogger.copyObject`.  Inputs that the Go code reads from collaborators
are passed explicitly: `copied`/`copyErr` are `Target.CopyObject`'s results,
`capErr` is `fs.GetCapStatus().Err`, and `interval` is the
`throttleNumObjects` constant (not under src/; the spec calls it the
capacity-check interval in objects processed).  Early return statements are
modelled by the `capAbort` match. -/
def copyObject (kind id : Str) (interval : Nat) (st : BccState) (size : Nat)
    (copied : Bool) (copyErr : Option CpErr) (capErr : Option CpErr) :
    BccState × Option JogErr :=
  let st' : BccState :=
    if copied then ⟨st.objects + 1, st.bytes + (size + size), st.num + 1⟩
    else st
  let capAbort : Option JogErr :=
    if copied then
      if st'.num % interval = 0 then
        match capErr with
        | some e => some (.aborted (abortWhat kind id) e.msg)
        | none => none
      else none
    else none
  match capAbort with
  | some e => (st', some e)
  | none =>
    if isErrOOS copyErr then
      (st', some (.aborted (abortWhat kind id) (oosMsg copyErr)))
    else (st', copyErr.map .plain)

/-! ### Bucket-copy run lifecycle (`XactBckCopy.Run`) -/

inductive RunEvent
  | dmOpen
  | launchJogger (mpath : Str)
  | joggerReported (mpath : Str)
  | drainSleep
  | dmClose
  | dmUnregRecv
  | finishCalled
deriving DecidableEq

def isLaunch : RunEvent → Bool
  | .launchJogger _ => true
  | _ => false

def isReported : RunEvent → Bool
  | .joggerReported _ => true
  | _ => false

/-- `XactBckCopy.Run` as its sequence of lifecycle events over the mountpath
snapshot `mpaths` (from `fs.Get()`).  The sequential body is from the
source: `dm.Open()`, then `runJoggers` launches one jogger per mountpath,
then `waitDone(mpathCount)`, the two-second drain sleep, `dm.Close()`,
`dm.UnregRecv()`, and `Finish`.  Modelled from the spec:
`xactBckBase.waitDone` is not under src/; per the spec it returns only after
every launched jogger has reported completion, so each jogger's report event
is placed at its latest possible point, just before `waitDone` returns. -/
def runTrace (mpaths : List Str) : List RunEvent :=
  .dmOpen :: (mpaths.map .launchJogger) ++ (mpaths.map .joggerReported)
    ++ [.drainSleep, .dmClose, .dmUnregRecv, .finishCalled]

/-- Event `a` occurs strictly before event `b` in the trace `t`. -/
def precedes {α : Type} (a b : α) (t : List α) : Prop :=
  ∃ l₁ l₂ l₃, t = l₁ ++ a :: l₂ ++ b :: l₃

/-! ### Bucket-copy jogger buffer discipline (`bccJogger.jog`) -/

inductive BufEvent
  | alloc
  | free
  | walkStep (n : Nat)
deriving DecidableEq

/-- `bccJogger.jog` as its sequence of buffer events: `slab.Alloc()`, then
the walk `joggerBckBase.jog()`, then `slab.Free(buf)`.  Modelled from the
spec: `joggerBckBase.jog` is not under src/; per the spec it reports
aggregate success or failure upward by returning, on every path, so it is
represented by an arbitrary event list `walk` that does not touch the
slab. -/
def bccJog (walk : List BufEvent) : List BufEvent :=
  .alloc :: walk ++ [.free]

/-! ## Helper lemmas: splitting primitives -/

theorem takeWhile_no {sep : Char} (zs ws : Str) (h : sep ∉ zs) :
    (zs ++ sep :: ws).takeWhile (fun c => c != sep) = zs := by
  induction zs with
  | nil => simp
  | cons a t ih =>
    simp only [List.mem_cons, not_or] at h
    have ha : ¬a = sep := fun e => h.1 e.symm
    simp [List.takeWhile_cons, ha, ih h.2]

theorem dropWhile_no {sep : Char} (zs ws : Str) (h : sep ∉ zs) :
    (zs ++ sep :: ws).dropWhile (fun c => c != sep) = sep :: ws := by
  induction zs with
  | nil => simp
  | cons a t ih =>
    simp only [List.mem_cons, not_or] at h
    have ha : ¬a = sep := fun e => h.1 e.symm
    simp [List.dropWhile_cons, ha, ih h.2]

theorem takeWhile_all {sep : Char} (zs : Str) (h : sep ∉ zs) :
    zs.takeWhile (fun c => c != sep) = zs := by
  induction zs with
  | nil => simp
  | cons a t ih =>
    simp only [List.mem_cons, not_or] at h
    have ha : ¬a = sep := fun e => h.1 e.symm
    simp [List.takeWhile_cons, ha, ih h.2]

theorem dropWhile_all {sep : Char} (zs : Str) (h : sep ∉ zs) :
    zs.dropWhile (fun c => c != sep) = [] := by
  induction zs with
  | nil => simp
  | cons a t ih =>
    simp only [List.mem_cons, not_or] at h
    have ha : ¬a = sep := fun e => h.1 e.symm
    simp [List.dropWhile_cons, ha, ih h.2]

theorem breakLast_eq {sep : Char} (xs ys : Str) (h : sep ∉ ys) :
    breakLast sep (xs ++ sep :: ys) = (xs ++ [sep], ys) := by
  have h' : sep ∉ ys.reverse := by simpa using h
  have hrev : (xs ++ sep :: ys).reverse = ys.reverse ++ sep :: xs.reverse := by
    simp
  unfold breakLast
  rw [hrev, dropWhile_no _ _ h', takeWhile_no _ _ h']
  simp

theorem breakLast_none {sep : Char} (s : Str) (h : sep ∉ s) :
    breakLast sep s = ([], s) := by
  have h' : sep ∉ s.reverse := by simpa using h
  unfold breakLast
  rw [dropWhile_all _ h', takeWhile_all _ h']
  simp

theorem breakFirst_eq {sep : Char} (xs ys : Str) (h : sep ∉ xs) :
    breakFirst sep (xs ++ sep :: ys) = some (xs, ys) := by
  unfold breakFirst
  rw [dropWhile_no _ _ h, takeWhile_no _ _ h]

theorem breakLastIdx_eq {sep : Char} (xs ys : Str) (h : sep ∉ ys) :
    breakLastIdx sep (xs ++ sep :: ys) = some (xs, ys) := by
  have h' : sep ∉ ys.reverse := by simpa using h
  have hrev : (xs ++ sep :: ys).reverse = ys.reverse ++ sep :: xs.reverse := by
    simp
  unfold breakLastIdx
  rw [hrev, dropWhile_no _ _ h', takeWhile_no _ _ h']
  simp

/-! ## Helper lemmas: hexadecimal round trip -/

theorem hexVal_hexChar (d : Nat) (h : d < 16) : hexVal (hexChar d) = some d := by
  interval_cases d <;> decide

theorem hexChar_ne (d : Nat) (h : d < 16) :
    hexChar d ≠ '.' ∧ hexChar d ≠ '/' := by
  interval_cases d <;> decide

theorem toHex_ne_nil (n : Nat) : toHex n ≠ [] := by
  rw [toHex]
  split <;> simp

theorem mem_toHex {n : Nat} {c : Char} (h : c ∈ toHex n) :
    ∃ d, d < 16 ∧ c = hexChar d := by
  induction n using Nat.strong_induction_on with
  | _ n ih =>
    rw [toHex] at h
    by_cases h16 : n < 16
    · rw [if_pos h16] at h
      simp only [List.mem_singleton] at h
      exact ⟨n, h16, h⟩
    · rw [if_neg h16] at h
      rcases List.mem_append.mp h with hl | hr
      · exact ih (n / 16) (Nat.div_lt_self (by omega) (by omega)) hl
      · simp only [List.mem_singleton] at hr
        exact ⟨n % 16, Nat.mod_lt _ (by omega), hr⟩

theorem toHex_no_dot (n : Nat) : '.' ∉ toHex n := by
  intro h
  obtain ⟨d, hd, he⟩ := mem_toHex h
  exact (hexChar_ne d hd).1 he.symm

theorem toHex_no_slash (n : Nat) : '/' ∉ toHex n := by
  intro h
  obtain ⟨d, hd, he⟩ := mem_toHex h
  exact (hexChar_ne d hd).2 he.symm

theorem parseHexCore_append (xs ys : Str) (acc : Nat) :
    parseHexCore (xs ++ ys) acc =
      match parseHexCore xs acc with
      | none => none
      | some mm => parseHexCore ys mm := by
  induction xs generalizing acc with
  | nil => simp [parseHexCore]
  | cons c t ih =>
    simp only [List.cons_append, parseHexCore]
    cases hv : hexVal c with
    | none => rfl
    | some d => exact ih _

theorem parseHexCore_toHex (n : Nat) :
    ∀ acc, parseHexCore (toHex n) acc =
      some (acc * 16 ^ (toHex n).length + n) := by
  induction n using Nat.strong_induction_on with
  | _ n ih =>
    intro acc
    rw [toHex]
    by_cases h16 : n < 16
    · rw [if_pos h16]
      simp [parseHexCore, hexVal_hexChar n h16]
    · rw [if_neg h16]
      rw [parseHexCore_append]
      rw [ih (n / 16) (Nat.div_lt_self (by omega) (by omega)) acc]
      simp only [parseHexCore, hexVal_hexChar (n % 16) (Nat.mod_lt _ (by omega)),
        List.length_append, List.length_cons, List.length_nil,
        Option.some.injEq]
      rw [pow_succ, ← mul_assoc]
      omega

theorem parseHex64_toHex (n : Nat) (h : n < 2 ^ 63) :
    parseHex64 (toHex n) = some n := by
  have hcore := parseHexCore_toHex n 0
  rcases he : toHex n with _ | ⟨a, t⟩
  · exact absurd he (toHex_ne_nil n)
  · rw [he] at hcore
    simp only [zero_mul, zero_add] at hcore
    have h' : n < 9223372036854775808 := by omega
    simp [parseHex64, hcore, h']

/-! ## Helper lemmas: the workfile resolver round trip -/

theorem workfileGen_flat (pid : Nat) (tie base pfx : Str) (hb : '/' ∉ base) :
    workfileGen pid tie base pfx =
      pfx ++ '.' :: (base ++ '.' :: tie ++ '.' :: toHex pid) := by
  unfold workfileGen
  rw [breakLast_none base hb]
  simp [joinPath]

theorem workfileParse_workfileGen (pid pid2 : Nat) (tie base pfx : Str)
    (hb : '/' ∉ base) (hpfx : '.' ∉ pfx) (htie : '.' ∉ tie)
    (hpid : pid < 2 ^ 63) :
    workfileParse pid2 (workfileGen pid tie base pfx) =
      some (base, if pid = pid2 then false else true) := by
  rw [workfileGen_flat pid tie base pfx hb]
  have hR : base ++ ('.' :: tie ++ '.' :: toHex pid) =
      (base ++ '.' :: tie) ++ '.' :: toHex pid := by
    simp
  simp only [workfileParse, breakFirst_eq pfx _ hpfx, hR,
    breakLastIdx_eq _ _ (toHex_no_dot pid), breakLastIdx_eq base tie htie,
    parseHex64_toHex pid hpid]

/-! ## Helper lemmas: FQN decode on generated paths -/

theorem fileSpec_shape (m : Registry) (spec : ContentResolver) (pid : Nat)
    (mpath bucket ct u : Str) (hreg : lookupCT m ct = some spec)
    (hb : '/' ∉ bucket) (hct : '/' ∉ ct) (hu : '/' ∉ u) (hne : u ≠ []) :
    FileSpec m pid mpath (makePathFQN mpath bucket ct u) =
      match spec.parseUniqueFQN pid u with
      | none => none
      | some (origBase, old) =>
        some (spec, ⟨mpath ++ '/' :: bucket ++ '/' :: ct ++ ['/'],
          origBase, ct, old⟩) := by
  have hfqn : makePathFQN mpath bucket ct u =
      (mpath ++ '/' :: bucket ++ '/' :: ct) ++ '/' :: u := by
    simp [makePathFQN]
  have hbreak : breakLast '/' (makePathFQN mpath bucket ct u) =
      ((mpath ++ '/' :: bucket ++ '/' :: ct) ++ ['/'], u) := by
    rw [hfqn, breakLast_eq _ _ hu]
  have hparse : parseFQN mpath (makePathFQN mpath bucket ct u) =
      some ⟨bucket, ct, u⟩ := by
    have hfqn2 : makePathFQN mpath bucket ct u =
        (mpath ++ ['/']) ++ (bucket ++ '/' :: (ct ++ '/' :: u)) := by
      simp [makePathFQN]
    unfold parseFQN
    rw [hfqn2, List.take_left' (by simp), List.drop_left' (by simp)]
    simp only [if_pos rfl, breakFirst_eq bucket _ hb, breakFirst_eq ct _ hct]
    simp
  have hcond : ¬((((mpath ++ '/' :: bucket ++ '/' :: ct) ++ ['/']).getLast? ≠
      some '/') ∨ u = []) :=
    not_or.mpr ⟨not_ne_iff.mpr (List.getLast?_concat _), hne⟩
  rcases hpu : spec.parseUniqueFQN pid u with _ | ⟨origBase, old⟩
  · simp only [FileSpec, hbreak, if_neg hcond, hparse, hreg, hpu]
  · simp only [FileSpec, hbreak, if_neg hcond, hparse, hreg, hpu]

/-! ## Helper lemmas: FQN decode on malformed or unknown paths -/

theorem fileSpec_no_slash (m : Registry) (pid : Nat) (mpath fqn : Str)
    (h : '/' ∉ fqn) : FileSpec m pid mpath fqn = none := by
  have hb := breakLast_none fqn h
  simp [FileSpec, hb]

theorem fileSpec_ends_slash (m : Registry) (pid : Nat) (mpath xs : Str) :
    FileSpec m pid mpath (xs ++ ['/']) = none := by
  have hb : breakLast '/' (xs ++ ['/']) = (xs ++ ['/'], []) := by
    simpa using breakLast_eq xs [] (by simp)
  simp [FileSpec, hb]

theorem fileSpec_unknown (m : Registry) (pid : Nat) (mpath fqn : Str)
    (h : parseFQN mpath fqn = none ∨
      ∃ p, parseFQN mpath fqn = some p ∧ lookupCT m p.contentType = none) :
    FileSpec m pid mpath fqn = none := by
  rcases h with h | ⟨p, hp, hl⟩
  · simp [FileSpec, h]
  · simp [FileSpec, hp, hl]

/-! ## Helper lemmas: copyObject projections -/

theorem copyObject_fst (kind id : Str) (interval : Nat) (st : BccState)
    (size : Nat) (copied : Bool) (copyErr capErr : Option CpErr) :
    (copyObject kind id interval st size copied copyErr capErr).1 =
      if copied then ⟨st.objects + 1, st.bytes + (size + size), st.num + 1⟩
      else st := by
  simp only [copyObject]
  split
  · rfl
  · split <;> rfl

/-! ## Helper lemmas: run-trace decompositions -/

theorem reported_before (mpaths : List Str) (mp : Str) (hmp : mp ∈ mpaths)
    (c : RunEvent) (l r : List RunEvent)
    (h : [RunEvent.drainSleep, RunEvent.dmClose, RunEvent.dmUnregRecv,
      RunEvent.finishCalled] = l ++ c :: r) :
    precedes (RunEvent.joggerReported mp) c (runTrace mpaths) := by
  obtain ⟨s, t, hst⟩ := List.append_of_mem hmp
  subst hst
  refine ⟨RunEvent.dmOpen :: (s ++ mp :: t).map RunEvent.launchJogger
    ++ s.map RunEvent.joggerReported,
    t.map RunEvent.joggerReported ++ l, r, ?_⟩
  rw [runTrace, h]
  simp

/-! ## Claim theorems -/

/-- C5: `Reg` returns an error for every content type whose length is not 2,
for every content type containing the path separator, and for every content
type already present in the registry; for every other content type it
succeeds, and a second registration of the same tag fails, so registration
succeeds exactly once. -/
theorem reg_spec (m : Registry) (ct : Str) (r : ContentResolver) :
    ((ct.length ≠ 2 ∨ '/' ∈ ct ∨ (lookupCT m ct).isSome = true) →
      ∃ e, Reg m ct r = .error e) ∧
    (ct.length = 2 → '/' ∉ ct → lookupCT m ct = none →
      ∃ m', Reg m ct r = .ok m' ∧
        ∀ r', ∃ e, Reg m' ct r' = .error e) := by
  constructor
  · intro h
    by_cases hs : '/' ∈ ct
    · exact ⟨.containsSep, by simp [Reg, hs]⟩
    by_cases hl : ct.length = 2
    · have hsome : (lookupCT m ct).isSome = true := by
        rcases h with h | h | h
        · exact absurd hl h
        · exact absurd h hs
        · exact h
      exact ⟨.alreadyRegistered, by simp [Reg, hs, hl, contentTypeLen, hsome]⟩
    · exact ⟨.badLength, by simp [Reg, hs, hl, contentTypeLen]⟩
  · intro hl hs hnone
    refine ⟨(ct, r) :: m,
      by simp [Reg, hs, hl, contentTypeLen, hnone], ?_⟩
    intro r'
    refine ⟨.alreadyRegistered, ?_⟩
    have hlook : lookupCT ((ct, r) :: m) ct = some r := by simp [lookupCT]
    simp [Reg, hs, hl, contentTypeLen, hlook]

/-- Witness for C5 at concrete inputs: a 1-character tag is rejected, a fresh
2-character tag registers once and a re-registration fails. -/
theorem reg_spec_w :
    (∃ e, Reg [] ['o'] ContentResolver.obj = .error e) ∧
    ∃ m', Reg [] ['o', 'b'] ContentResolver.obj = .ok m' ∧
      ∀ r', ∃ e, Reg m' ['o', 'b'] r' = .error e :=
  ⟨(reg_spec [] ['o'] ContentResolver.obj).1 (Or.inl (by decide)),
   (reg_spec [] ['o', 'b'] ContentResolver.obj).2 (by decide) (by decide)
     (by decide)⟩

/-- C10: `Gen` requires a registered content type: when the content type is
present in the registry the result is the well-defined FQN built from the
resolver's unique name; when it is absent the Go nil dereference leaves `Gen`
with no defined result, modelled as `none`. -/
theorem gen_defined_iff_registered (m : Registry) (pid : Nat)
    (tie mpath bucket objName ct pfx : Str) :
    (∀ spec, lookupCT m ct = some spec →
      Gen m pid tie mpath bucket objName ct pfx =
        some (makePathFQN mpath bucket ct
          (spec.genUniqueFQN pid tie objName pfx))) ∧
    (lookupCT m ct = none →
      Gen m pid tie mpath bucket objName ct pfx = none) := by
  constructor
  · intro spec h
    simp [Gen, h]
  · intro h
    simp [Gen, h]

/-- Witness for C10 at concrete inputs: a registered and an unregistered
content type. -/
theorem gen_defined_iff_registered_w :
    Gen [(['o', 'b'], ContentResolver.obj)] 1 ['t'] ['m'] ['b'] ['o']
        ['o', 'b'] ['q'] =
      some (makePathFQN ['m'] ['b'] ['o', 'b']
        (ContentResolver.obj.genUniqueFQN 1 ['t'] ['o'] ['q'])) ∧
    Gen [(['o', 'b'], ContentResolver.obj)] 1 ['t'] ['m'] ['b'] ['o']
        ['x', 'y'] ['q'] = none :=
  ⟨(gen_defined_iff_registered [(['o', 'b'], ContentResolver.obj)] 1 ['t']
      ['m'] ['b'] ['o'] ['o', 'b'] ['q']).1 ContentResolver.obj (by decide),
   (gen_defined_iff_registered [(['o', 'b'], ContentResolver.obj)] 1 ['t']
      ['m'] ['b'] ['o'] ['x', 'y'] ['q']).2 (by decide)⟩

/-- C6: on every FQN whose content type is not registered, or which cannot be
decoded at all, `PermToEvict` returns true (and not-old) while `PermToMove`
and `PermToProcess` return false. -/
theorem perm_defaults_unknown (m : Registry) (pid : Nat) (mpath fqn : Str)
    (h : parseFQN mpath fqn = none ∨
      ∃ p, parseFQN mpath fqn = some p ∧ lookupCT m p.contentType = none) :
    PermToEvict m pid mpath fqn = (true, false) ∧
    PermToMove m pid mpath fqn = false ∧
    PermToProcess m pid mpath fqn = false := by
  have hnone := fileSpec_unknown m pid mpath fqn h
  exact ⟨by simp [PermToEvict, hnone], by simp [PermToMove, hnone],
    by simp [PermToProcess, hnone]⟩

/-- Witness for C6 at a concrete undecodable FQN. -/
theorem perm_defaults_unknown_w :
    PermToEvict [(['o', 'b'], ContentResolver.obj)] 1 ['m'] ['x'] =
        (true, false) ∧
    PermToMove [(['o', 'b'], ContentResolver.obj)] 1 ['m'] ['x'] = false ∧
    PermToProcess [(['o', 'b'], ContentResolver.obj)] 1 ['m'] ['x'] = false :=
  perm_defaults_unknown [(['o', 'b'], ContentResolver.obj)] 1 ['m'] ['x']
    (Or.inl (by decide))

/-- C8: `FileSpec` on a path whose directory component does not end with the
separator (no separator at all), or whose basename is empty, or whose content
type is unrecognized, returns the absent result; being a total function into
`Option` it never fails on a malformed FQN. -/
theorem fileSpec_malformed_absent (m : Registry) (pid : Nat)
    (mpath fqn : Str) :
    ('/' ∉ fqn → FileSpec m pid mpath fqn = none) ∧
    (∀ xs, fqn = xs ++ ['/'] → FileSpec m pid mpath fqn = none) ∧
    (∀ p, parseFQN mpath fqn = some p → lookupCT m p.contentType = none →
      FileSpec m pid mpath fqn = none) := by
  refine ⟨fun h => fileSpec_no_slash m pid mpath fqn h, ?_, ?_⟩
  · intro xs hx
    rw [hx]
    exact fileSpec_ends_slash m pid mpath xs
  · intro p hp hl
    exact fileSpec_unknown m pid mpath fqn (Or.inr ⟨p, hp, hl⟩)

/-- Witness for C8 at concrete inputs: no separator, empty basename, and an
unregistered content type. -/
theorem fileSpec_malformed_absent_w :
    FileSpec [(['o', 'b'], ContentResolver.obj)] 1 ['m'] ['a', 'b'] = none ∧
    FileSpec [(['o', 'b'], ContentResolver.obj)] 1 ['m'] (['a'] ++ ['/']) =
      none ∧
    FileSpec [(['o', 'b'], ContentResolver.obj)] 1 ['m']
      ['m', '/', 'b', '/', 'x', 'y', '/', 'o'] = none :=
  ⟨(fileSpec_malformed_absent [(['o', 'b'], ContentResolver.obj)] 1 ['m']
      ['a', 'b']).1 (by decide),
   (fileSpec_malformed_absent [(['o', 'b'], ContentResolver.obj)] 1 ['m']
      (['a'] ++ ['/'])).2.1 ['a'] (by decide),
   (fileSpec_malformed_absent [(['o', 'b'], ContentResolver.obj)] 1 ['m']
      ['m', '/', 'b', '/', 'x', 'y', '/', 'o']).2.2
     ⟨['b'], ['x', 'y'], ['o']⟩ (by decide) (by decide)⟩

/-- C1: round trip of the FQN codec: for every content type registered in
the registry and every valid (bucket, object-name, prefix) — no separator in
bucket, content type or object name, a non-empty object name, and a dot-free
and separator-free prefix and tie-breaker — decoding the FQN produced by
`Gen` recovers the original logical object name, the content type, and, for
a decode in the generating process, the old flag `false`. -/
theorem gen_fileSpec_roundtrip (m : Registry) (spec : ContentResolver)
    (pid : Nat) (tie mpath bucket objName ct pfx : Str)
    (hreg : lookupCT m ct = some spec)
    (hbk : '/' ∉ bucket) (hct : '/' ∉ ct)
    (hobj : '/' ∉ objName) (hone : objName ≠ [])
    (hpfx : '.' ∉ pfx ∧ '/' ∉ pfx) (htie : '.' ∉ tie ∧ '/' ∉ tie)
    (hpid : pid < 2 ^ 63) :
    ∃ fqn d, Gen m pid tie mpath bucket objName ct pfx = some fqn ∧
      FileSpec m pid mpath fqn = some (spec, ⟨d, objName, ct, false⟩) := by
  refine ⟨makePathFQN mpath bucket ct (spec.genUniqueFQN pid tie objName pfx),
    mpath ++ '/' :: bucket ++ '/' :: ct ++ ['/'], by simp [Gen, hreg], ?_⟩
  cases spec with
  | workfile =>
    have hu1 : '/' ∉ ContentResolver.workfile.genUniqueFQN pid tie objName pfx := by
      simp only [ContentResolver.genUniqueFQN]
      rw [workfileGen_flat pid tie objName pfx hobj]
      simp [hpfx.2, hobj, htie.2, toHex_no_slash pid]
    have hu2 : ContentResolver.workfile.genUniqueFQN pid tie objName pfx ≠ [] := by
      simp only [ContentResolver.genUniqueFQN]
      rw [workfileGen_flat pid tie objName pfx hobj]
      simp
    rw [fileSpec_shape m ContentResolver.workfile pid mpath bucket ct _ hreg
      hbk hct hu1 hu2]
    simp only [ContentResolver.parseUniqueFQN, ContentResolver.genUniqueFQN]
    rw [workfileParse_workfileGen pid pid tie objName pfx hobj hpfx.1 htie.1
      hpid]
    simp
  | obj =>
    simp only [ContentResolver.genUniqueFQN]
    rw [fileSpec_shape m ContentResolver.obj pid mpath bucket ct objName hreg
      hbk hct hobj hone]
    rfl
  | ecSlice =>
    simp only [ContentResolver.genUniqueFQN]
    rw [fileSpec_shape m ContentResolver.ecSlice pid mpath bucket ct objName
      hreg hbk hct hobj hone]
    rfl
  | ecMeta =>
    simp only [ContentResolver.genUniqueFQN]
    rw [fileSpec_shape m ContentResolver.ecMeta pid mpath bucket ct objName
      hreg hbk hct hobj hone]
    rfl

/-- Witness for C1 at concrete inputs: the workfile resolver with registry
entry wk, bucket b, object o, tie-breaker t, prefix q, pid 7. -/
theorem gen_fileSpec_roundtrip_w :
    ∃ fqn d,
      Gen [(['w', 'k'], ContentResolver.workfile)] 7 ['t'] ['m', 'p'] ['b']
          ['o'] ['w', 'k'] ['q'] = some fqn ∧
      FileSpec [(['w', 'k'], ContentResolver.workfile)] 7 ['m', 'p'] fqn =
        some (ContentResolver.workfile, ⟨d, ['o'], ['w', 'k'], false⟩) :=
  gen_fileSpec_roundtrip [(['w', 'k'], ContentResolver.workfile)]
    ContentResolver.workfile 7 ['t'] ['m', 'p'] ['b'] ['o'] ['w', 'k'] ['q']
    (by decide) (by decide) (by decide) (by decide) (by decide) (by decide)
    (by decide) (by decide)

/-- C7: a workfile name generated under process id P1 with any base and
prefix, decoded in a process with id P2, yields old = true exactly when
P2 differs from P1 (and old = false when P2 = P1). -/
theorem workfile_old_flag (p1 p2 : Nat) (tie base pfx : Str)
    (hb : '/' ∉ base) (hpfx : '.' ∉ pfx) (htie : '.' ∉ tie)
    (hp1 : p1 < 2 ^ 63) :
    ∃ old, workfileParse p2 (workfileGen p1 tie base pfx) =
        some (base, old) ∧ (old = true ↔ p2 ≠ p1) := by
  refine ⟨if p1 = p2 then false else true,
    workfileParse_workfileGen p1 p2 tie base pfx hb hpfx htie hp1, ?_⟩
  by_cases h : p1 = p2
  · simp [h]
  · simp [h]
    exact fun e => h e.symm

/-- Witness for C7 at concrete inputs, pids 3 and 4. -/
theorem workfile_old_flag_w :
    ∃ old, workfileParse 4 (workfileGen 3 ['t'] ['o'] ['q']) =
        some (['o'], old) ∧ (old = true ↔ 4 ≠ 3) :=
  workfile_old_flag 3 4 ['t'] ['o'] ['q'] (by decide) (by decide) (by decide)
    (by decide)

/-- C2: over a snapshot of M mountpaths, `Run` launches exactly M joggers
(one per mountpath in the snapshot); `dm.Close` and `dm.UnregRecv` occur
only after every launched jogger has reported and after the drain allowance;
and `Finish` occurs exactly once, after all M joggers have reported. -/
theorem run_lifecycle (mpaths : List Str) :
    (runTrace mpaths).countP isLaunch = mpaths.length ∧
    (∀ mp ∈ mpaths, RunEvent.launchJogger mp ∈ runTrace mpaths) ∧
    (runTrace mpaths).count RunEvent.finishCalled = 1 ∧
    (∀ mp ∈ mpaths,
      precedes (RunEvent.joggerReported mp) RunEvent.dmClose
        (runTrace mpaths) ∧
      precedes (RunEvent.joggerReported mp) RunEvent.dmUnregRecv
        (runTrace mpaths) ∧
      precedes (RunEvent.joggerReported mp) RunEvent.finishCalled
        (runTrace mpaths)) ∧
    precedes RunEvent.drainSleep RunEvent.dmClose (runTrace mpaths) ∧
    precedes RunEvent.drainSleep RunEvent.dmUnregRecv (runTrace mpaths) := by
  refine ⟨?_, ?_, ?_, ?_, ?_, ?_⟩
  · have h1 : List.countP (isLaunch ∘ RunEvent.launchJogger) mpaths =
        mpaths.length :=
      List.countP_eq_length.mpr (fun a _ => rfl)
    have h2 : List.countP (isLaunch ∘ RunEvent.joggerReported) mpaths = 0 :=
      List.countP_eq_zero.mpr (fun a _ => Bool.false_ne_true)
    simp [runTrace, isLaunch, List.countP_append, List.countP_cons,
      List.countP_map, h1, h2]
  · intro mp hmp
    have hmem : RunEvent.launchJogger mp ∈ mpaths.map RunEvent.launchJogger :=
      List.mem_map_of_mem _ hmp
    simp [runTrace, hmem]
  · have h1 : (mpaths.map RunEvent.launchJogger).count
        RunEvent.finishCalled = 0 :=
      List.count_eq_zero.mpr (by simp)
    have h2 : (mpaths.map RunEvent.joggerReported).count
        RunEvent.finishCalled = 0 :=
      List.count_eq_zero.mpr (by simp)
    simp [runTrace, List.count_append, h1, h2, List.count_cons]
  · intro mp hmp
    exact ⟨reported_before mpaths mp hmp RunEvent.dmClose
        [RunEvent.drainSleep] [RunEvent.dmUnregRecv, RunEvent.finishCalled]
        rfl,
      reported_before mpaths mp hmp RunEvent.dmUnregRecv
        [RunEvent.drainSleep, RunEvent.dmClose] [RunEvent.finishCalled] rfl,
      reported_before mpaths mp hmp RunEvent.finishCalled
        [RunEvent.drainSleep, RunEvent.dmClose, RunEvent.dmUnregRecv] []
        rfl⟩
  · exact ⟨RunEvent.dmOpen :: mpaths.map RunEvent.launchJogger
      ++ mpaths.map RunEvent.joggerReported, [],
      [RunEvent.dmUnregRecv, RunEvent.finishCalled], by simp [runTrace]⟩
  · exact ⟨RunEvent.dmOpen :: mpaths.map RunEvent.launchJogger
      ++ mpaths.map RunEvent.joggerReported, [RunEvent.dmClose],
      [RunEvent.finishCalled], by simp [runTrace]⟩

/-- Witness for C2 over a concrete two-mountpath snapshot. -/
theorem run_lifecycle_w :
    (runTrace [['a'], ['b']]).countP isLaunch = 2 ∧
    precedes (RunEvent.joggerReported ['a']) RunEvent.dmClose
      (runTrace [['a'], ['b']]) :=
  ⟨(run_lifecycle [['a'], ['b']]).1,
   ((run_lifecycle [['a'], ['b']]).2.2.2.1 ['a'] (by decide)).1⟩

/-- C3: on every interval-th processed (copied) object the jogger checks the
capacity status and, when it carries an error, returns an abort error whose
what-string carries the job's kind and id; and whenever the per-object copy
error is classified out-of-space the jogger likewise returns an abort error
carrying the job's kind and id. -/
theorem copyObject_abort (kind id : Str) (interval : Nat) (st : BccState)
    (size : Nat) (copied : Bool) (copyErr capErr : Option CpErr) :
    (∀ e, copied = true → (st.num + 1) % interval = 0 → capErr = some e →
      (copyObject kind id interval st size copied copyErr capErr).2 =
        some (.aborted (abortWhat kind id) e.msg)) ∧
    (isErrOOS copyErr = true →
      ∃ d, (copyObject kind id interval st size copied copyErr capErr).2 =
        some (.aborted (abortWhat kind id) d)) := by
  constructor
  · intro e hc hm hcap
    subst hc
    subst hcap
    simp [copyObject, hm]
  · intro hoos
    by_cases hc : copied = true
    · subst hc
      by_cases hm : (st.num + 1) % interval = 0
      · rcases hcap : capErr with _ | e
        · exact ⟨oosMsg copyErr, by simp [copyObject, hm, hcap, hoos]⟩
        · exact ⟨e.msg, by simp [copyObject, hm, hcap]⟩
      · exact ⟨oosMsg copyErr, by simp [copyObject, hm, hoos]⟩
    · have hc' : copied = false := by
        revert hc
        cases copied <;> simp
      subst hc'
      exact ⟨oosMsg copyErr, by simp [copyObject, hoos]⟩

/-- Witness for C3 at concrete inputs: a capacity breach on the 2nd object
with interval 2, and an out-of-space copy error. -/
theorem copyObject_abort_w :
    (copyObject ['k'] ['i'] 2 ⟨0, 0, 1⟩ 5 true none
        (some (CpErr.other ['c']))).2 =
      some (.aborted (abortWhat ['k'] ['i']) (CpErr.other ['c']).msg) ∧
    ∃ d, (copyObject ['k'] ['i'] 2 ⟨0, 0, 0⟩ 5 false
        (some (CpErr.oos ['f'])) none).2 =
      some (.aborted (abortWhat ['k'] ['i']) d) :=
  ⟨(copyObject_abort ['k'] ['i'] 2 ⟨0, 0, 1⟩ 5 true none
      (some (CpErr.other ['c']))).1 (CpErr.other ['c']) rfl (by decide) rfl,
   (copyObject_abort ['k'] ['i'] 2 ⟨0, 0, 0⟩ 5 false
      (some (CpErr.oos ['f'])) none).2 (by decide)⟩

/-- C4: for every successfully copied object the job's object counter is
incremented by exactly one and the byte counter is increased by exactly twice
the object's size; when the copy reports copied = false neither counter
changes. -/
theorem copyObject_accounting (kind id : Str) (interval : Nat) (st : BccState)
    (size : Nat) (copied : Bool) (copyErr capErr : Option CpErr) :
    (copied = true →
      (copyObject kind id interval st size copied copyErr capErr).1.objects =
          st.objects + 1 ∧
        (copyObject kind id interval st size copied copyErr capErr).1.bytes =
          st.bytes + (size + size)) ∧
    (copied = false →
      (copyObject kind id interval st size copied copyErr capErr).1 = st) := by
  constructor
  · intro hc
    subst hc
    simp [copyObject_fst]
  · intro hc
    subst hc
    simp [copyObject_fst]

/-- Witness for C4 at concrete inputs: a copied and a non-copied object. -/
theorem copyObject_accounting_w :
    ((copyObject ['k'] ['i'] 16 ⟨3, 5, 0⟩ 100 true none none).1.objects =
        3 + 1 ∧
      (copyObject ['k'] ['i'] 16 ⟨3, 5, 0⟩ 100 true none none).1.bytes =
        5 + (100 + 100)) ∧
    (copyObject ['k'] ['i'] 16 ⟨3, 5, 0⟩ 100 false none none).1 =
      ⟨3, 5, 0⟩ :=
  ⟨(copyObject_accounting ['k'] ['i'] 16 ⟨3, 5, 0⟩ 100 true none none).1 rfl,
   (copyObject_accounting ['k'] ['i'] 16 ⟨3, 5, 0⟩ 100 false none none).2
     rfl⟩

/-- C9: the bucket-copy jogger acquires exactly one buffer at the start of
its run and releases it exactly once on exit, with the walk in between, on
every path of a walk that does not itself touch the slab. -/
theorem bccJog_buffer (walk : List BufEvent)
    (ha : BufEvent.alloc ∉ walk) (hf : BufEvent.free ∉ walk) :
    (bccJog walk).count BufEvent.alloc = 1 ∧
    (bccJog walk).count BufEvent.free = 1 ∧
    precedes BufEvent.alloc BufEvent.free (bccJog walk) := by
  refine ⟨?_, ?_, ⟨[], walk, [], rfl⟩⟩
  · have h0 : walk.count BufEvent.alloc = 0 := List.count_eq_zero.mpr ha
    simp [bccJog, List.count_append, List.count_cons, h0]
  · have h0 : walk.count BufEvent.free = 0 := List.count_eq_zero.mpr hf
    simp [bccJog, List.count_append, List.count_cons, h0]

/-- Witness for C9 over a concrete one-step walk. -/
theorem bccJog_buffer_w :
    (bccJog [BufEvent.walkStep 0]).count BufEvent.alloc = 1 ∧
    (bccJog [BufEvent.walkStep 0]).count BufEvent.free = 1 ∧
    precedes BufEvent.alloc BufEvent.free (bccJog [BufEvent.walkStep 0]) :=
  bccJog_buffer [BufEvent.walkStep 0] (by decide) (by decide)

end AStore
